import Mathlib

/-!
Shallow embedding of the sequence-matching and annotation core of
`dms_tools2/pacbio.py` (functions `matchSeqs`, `alignSeqs`,
`qvalsToAccuracy`, `re_expandIUPAC`), together with theorems checking the
natural-language specification against this embedding.

Conventions of the embedding:

* A pandas data frame is a list of column names plus one association list
  of cells per row (`DataFrame`).  Python `None` is `Cell.none`, a numpy
  float `nan` is `Cell.float Option.none`, and a numpy integer array is
  `Cell.qarr`.
* Machine floats are modelled by real numbers; `numpy.nan` results are
  modelled by `Option ℝ` with `Option.none` for `nan`.
* A raised Python exception (`raise`, a failing `assert`) is
  `Except.error`; a normal return is `Except.ok`.
-/

set_option autoImplicit false

namespace DmsTools2

/-- The fields of a `dms_tools2.minimap2.Alignment` record the annotator
reads: target, strand, query/target offsets and lengths, and the long-form
CIGAR string. -/
structure Alignment0 where
  target : String
  strand : ℤ
  q_st : ℤ
  q_en : ℤ
  q_len : ℤ
  r_st : ℤ
  r_en : ℤ
  r_len : ℤ
  cigar_str : String

/-- A best alignment together with its secondary alignments
(`Alignment.additional`; only the `target` of a secondary alignment is
read, so one nesting level suffices). -/
structure Alignment extends Alignment0 where
  additional : List Alignment0

/-- A cell of a pandas data frame column, covering the value shapes the
`pacbio` module stores: booleans, Python ints, strings, floats (with
`Option.none` for `numpy.nan`), integer quality-score arrays, alignment
records (with `Option.none` for Python `None`), and mutation lists. -/
inductive Cell where
  | none
  | bool (b : Bool)
  | int (n : ℤ)
  | str (s : String)
  | float (x : Option ℝ)
  | qarr (qs : List ℕ)
  | align (a : Option Alignment)
  | muts (l : List String)

/-- A data frame: the column labels and, per row, an association list from
column label to cell.  Row order is the list order. -/
structure DataFrame where
  columns : List String
  rows : List (List (String × Cell))

/-- Look a cell up in a row by column label (first binding wins, like the
association lists the source builds row by row). -/
def getCell : List (String × Cell) → String → Cell
  | [], _ => Cell.none
  | (k, v) :: rest, c => if k = c then v else getCell rest c

/-- Read a cell as a string (the source only reads string-typed cells this
way; any other cell shape stands for a type confusion we never exercise). -/
def asStr : Cell → String
  | Cell.str s => s
  | _ => ""

/-- Read a cell as an integer quality array. -/
def asQarr : Cell → List ℕ
  | Cell.qarr qs => qs
  | _ => []

/-- Modelled from the spec: the module-level ambiguous-nucleotide lookup
table `dms_tools2.NT_TO_REGEXP` (defined in the package `__init__`, which is
not under `src/`): each upper-case ambiguous IUPAC nucleotide code maps to
its explicit character-class expansion; every other character is absent from
the table. -/
def NT_TO_REGEXP (c : Char) : Option String :=
  if c = 'R' then some ("[AG]") else
  if c = 'Y' then some ("[CT]") else
  if c = 'S' then some ("[CG]") else
  if c = 'W' then some ("[AT]") else
  if c = 'K' then some ("[GT]") else
  if c = 'M' then some ("[AC]") else
  if c = 'B' then some ("[CGT]") else
  if c = 'D' then some ("[AGT]") else
  if c = 'H' then some ("[ACT]") else
  if c = 'V' then some ("[ACG]") else
  if c = 'N' then some ("[ACGT]") else Option.none

/-- Modelled from the spec: `dms_tools2.utils.reverseComplement` (not under
`src/`): Watson-Crick complement of each nucleotide. -/
def complementNT (c : Char) : Char :=
  if c = 'A' then 'T' else
  if c = 'T' then 'A' else
  if c = 'C' then 'G' else
  if c = 'G' then 'C' else c

/-- Modelled from the spec: `dms_tools2.utils.reverseComplement` (not under
`src/`): complement every nucleotide, then reverse the sequence. -/
def reverseComplement (s : String) : String :=
  ⟨(s.toList.map complementNT).reverse⟩

/-! ### Capture-group-name marker scanner of `re_expandIUPAC`

The source marks every index covered by a non-overlapping, leftmost match of
the pattern `\(\?P<[^>]*>` (`groupname_matcher.finditer`), then rewrites the
unmarked ambiguous characters. -/

/-- Index of the first `'>'` at position `≥ k` (what the greedy `[^>]*>`
tail of the group-name pattern stops at), scanning with explicit fuel. -/
def findGt (s : List Char) : ℕ → ℕ → Option ℕ
  | _, 0 => Option.none
  | k, fuel + 1 =>
    match s.get? k with
    | Option.none => Option.none
    | some c => if c = '>' then some k else findGt s (k + 1) fuel

/-- Does a group-name marker `(?P<` start at index `p`? -/
def startsGroupname (s : List Char) (p : ℕ) : Bool :=
  (s.get? p == some ('(')) && (s.get? (p + 1) == some ('?')) &&
    (s.get? (p + 2) == some ('P')) && (s.get? (p + 3) == some ('<'))

/-- The half-open index spans of the leftmost non-overlapping matches of
`\(\?P<[^>]*>` starting from position `p` (the `finditer` loop of
`re_expandIUPAC`). -/
def gnSpansAux (s : List Char) : ℕ → ℕ → List (ℕ × ℕ)
  | _, 0 => []
  | p, fuel + 1 =>
    if p < s.length then
      if startsGroupname s p then
        match findGt s (p + 4) s.length with
        | some j => (p, j + 1) :: gnSpansAux s (j + 1) fuel
        | Option.none => gnSpansAux s (p + 1) fuel
      else gnSpansAux s (p + 1) fuel
    else []

/-- All group-name marker spans of a pattern string. -/
def gnSpans (s : List Char) : List (ℕ × ℕ) :=
  gnSpansAux s 0 (s.length + 1)

/-- Is index `i` inside one of the recorded spans (the `groupname_indices`
set of the source)? -/
def inSpans (spans : List (ℕ × ℕ)) (i : ℕ) : Bool :=
  spans.any (fun ab => decide (ab.1 ≤ i) && decide (i < ab.2))

/-- The replacement the character-by-character rewrite emits for one
character outside the marked spans: its `NT_TO_REGEXP` expansion if the
table holds it, the character itself otherwise. -/
def expandChar (c : Char) : List Char :=
  match NT_TO_REGEXP c with
  | some r => r.toList
  | Option.none => [c]

/-- `re_expandIUPAC` from the source: mark the group-name spans, then
rewrite every unmarked ambiguous-nucleotide character. -/
def re_expandIUPAC (re_str : String) : String :=
  let spans := gnSpans re_str.toList
  ⟨(re_str.toList.enum.map
      (fun ic => if inSpans spans ic.1 then [ic.2] else expandChar ic.2)).flatten⟩

/-! #### Declarative characterisation of the marker spans (for claim C6) -/

/-- Declaratively, `[a, b)` is a group-name marker span: it starts with the
four characters `(?P<`, ends with the first following `'>'`, and holds no
`'>'` in between. -/
def IsGroupnameSpan (s : List Char) (a b : ℕ) : Prop :=
  a + 5 ≤ b ∧ b ≤ s.length ∧
  s.get? a = some ('(') ∧ s.get? (a + 1) = some ('?') ∧
  s.get? (a + 2) = some ('P') ∧ s.get? (a + 3) = some ('<') ∧
  (∀ k, a + 4 ≤ k → k + 1 < b → s.get? k ≠ some ('>')) ∧
  s.get? (b - 1) = some ('>')

/-- Declaratively, index `i` lies inside a capture-group name marker. -/
def InMarker (s : List Char) (i : ℕ) : Prop :=
  ∃ a b, IsGroupnameSpan s a b ∧ a ≤ i ∧ i < b

/-! ### Accuracy model: `qvalsToAccuracy` -/

/-- The three input shapes `qvalsToAccuracy` accepts: a single number, an
array/list of numbers, or an encoded string. -/
inductive QVals where
  | number (q : ℤ)
  | array (qs : List ℤ)
  | str (s : String)

/-- Per-base correctness probability `1 - 10**(q / -10)` of a Phred
quality score. -/
noncomputable def perBase (q : ℤ) : ℝ :=
  1 - (10 : ℝ) ^ ((q : ℝ) / (-10))

/-- The mean-accuracy formula `(1 - 10**(qvals / -10)).sum() / len(qvals)`
applied to a plain integer vector, with `Option.none` for the `numpy.nan`
returned on empty input (the "numbers" path of `qvalsToAccuracy`). -/
noncomputable def qvalsToAccuracyNumbers (qs : List ℤ) : Option ℝ :=
  if qs.length = 0 then Option.none
  else some (((qs.map perBase).sum) / (qs.length : ℝ))

/-- `qvalsToAccuracy` from the source.  Control flow of the Python: under
the "numbers" encoding a scalar is first wrapped into a one-element array;
an empty input returns `nan` before the encoding is even validated; the
"sanger" encoding decodes each character as its code point minus 33; any
other encoding raises; applying the arithmetic to a string (or `len` to a
bare number) raises a `TypeError`. -/
noncomputable def qvalsToAccuracy (qvals : QVals) (encoding : String) :
    Except String (Option ℝ) :=
  let qvals : QVals :=
    if encoding = "numbers" then
      match qvals with
      | QVals.number q => QVals.array [q]
      | v => v
    else qvals
  match qvals with
  | QVals.number _ => Except.error ("TypeError: len() of unsized object")
  | QVals.array qs =>
    if qs.length = 0 then Except.ok Option.none
    else if encoding = "numbers" then
      Except.ok (some (((qs.map perBase).sum) / (qs.length : ℝ)))
    else if encoding = "sanger" then
      Except.error ("TypeError: ord() expected a character")
    else Except.error ("invalid encoding: " ++ encoding)
  | QVals.str s =>
    if s.length = 0 then Except.ok Option.none
    else if encoding = "numbers" then
      Except.error ("TypeError: unsupported operand type")
    else if encoding = "sanger" then
      let qs := s.toList.map (fun c => (c.toNat : ℤ) - 33)
      Except.ok (some (((qs.map perBase).sum) / (qs.length : ℝ)))
    else Except.error ("invalid encoding: " ++ encoding)

/-! ### Pattern matcher

Modelled from the spec (§4.3): the third-party `regex` library used by
`matchSeqs` is not part of this repository, so its compile/search behaviour
is modelled here for the pattern shapes the spec exercises: literal
characters, character classes, exact-count quantifiers, one-or-more
quantifiers, and named capture groups, matched with the standard
leftmost-then-greedy backtracking search semantics. -/

/-- A single-character regex token: a literal or a character class. -/
inductive RTok where
  | lit (c : Char)
  | cls (cs : List Char)
deriving DecidableEq

/-- A pattern element: one token, a `{n}` exact repetition of a token, or a
`+` (one or more, greedy) repetition of a token. -/
inductive RElem where
  | one (t : RTok)
  | rep (t : RTok) (n : ℕ)
  | plus (t : RTok)
deriving DecidableEq

/-- A parsed pattern: elements in order, each optionally wrapped in a named
capture group. -/
abbrev RPattern := List (Option String × RElem)

/-- Does a token match one character? -/
def tokMatches (t : RTok) (c : Char) : Bool :=
  match t with
  | RTok.lit c2 => c = c2
  | RTok.cls cs => c ∈ cs

/-- Do the `n` characters of `s` starting at `pos` exist and all match `t`? -/
def runMatches (t : RTok) (s : List Char) (pos n : ℕ) : Bool :=
  decide (pos + n ≤ s.length) && ((s.drop pos).take n).all (tokMatches t)

/-- Record a capture-group span when the element is named. -/
def addSpan (name : Option String) (a b : ℕ) (spans : List (String × ℕ × ℕ)) :
    List (String × ℕ × ℕ) :=
  match name with
  | some g => (g, a, b) :: spans
  | Option.none => spans

/-- The candidate run lengths a greedy `+` tries at a position: the longest
possible run first, down to a single character. -/
def plusCounts (maxn : ℕ) : List ℕ :=
  (List.range maxn).reverse.map (fun n => n + 1)

/-- Match the pattern elements against `s` starting at `pos`, returning the
end position and the named-group spans.  `+` is greedy with backtracking
(the longest run whose continuation matches wins).  The fuel argument is
only a structural-recursion device; `p.length` fuel always suffices. -/
def matchElems : ℕ → RPattern → List Char → ℕ →
    Option (ℕ × List (String × ℕ × ℕ))
  | _, [], _, pos => some (pos, [])
  | 0, _ :: _, _, _ => Option.none
  | fuel + 1, (name, RElem.one t) :: rest, s, pos =>
    if runMatches t s pos 1 then
      (matchElems fuel rest s (pos + 1)).map
        (fun r => (r.1, addSpan name pos (pos + 1) r.2))
    else Option.none
  | fuel + 1, (name, RElem.rep t n) :: rest, s, pos =>
    if runMatches t s pos n then
      (matchElems fuel rest s (pos + n)).map
        (fun r => (r.1, addSpan name pos (pos + n) r.2))
    else Option.none
  | fuel + 1, (name, RElem.plus t) :: rest, s, pos =>
    (plusCounts (s.length - pos)).findSome? (fun n =>
      if runMatches t s pos n then
        (matchElems fuel rest s (pos + n)).map
          (fun r => (r.1, addSpan name pos (pos + n) r.2))
      else Option.none)

/-- A successful search: overall span and the named-group spans. -/
structure ReMatchT where
  mstart : ℕ
  mend : ℕ
  spans : List (String × ℕ × ℕ)
deriving DecidableEq

/-- `m.start(g)` of the Python match object. -/
def ReMatchT.gstart (m : ReMatchT) (g : String) : ℕ :=
  ((m.spans.lookup g).getD (0, 0)).1

/-- `m.end(g)` of the Python match object. -/
def ReMatchT.gend (m : ReMatchT) (g : String) : ℕ :=
  ((m.spans.lookup g).getD (0, 0)).2

/-- Try to match at `start`, `start + 1`, ... (leftmost search). -/
def searchAux (p : RPattern) (s : List Char) : ℕ → ℕ → Option ReMatchT
  | _, 0 => Option.none
  | start, fuel + 1 =>
    match matchElems p.length p s start with
    | some r => some ⟨start, r.1, r.2⟩
    | Option.none => searchAux p s (start + 1) fuel

/-- `matcher.search` of the compiled pattern: leftmost match anywhere in the
string. -/
def reSearch (p : RPattern) (s : List Char) : Option ReMatchT :=
  searchAux p s 0 (s.length + 1)

/-- A compiled matcher: the group names in declaration order
(`matcher.groupindex`) and the search function. -/
structure Matcher where
  groupindex : List String
  search : String → Option ReMatchT

/-! #### Parser from pattern strings to `RPattern` (part of the modelled
`regex.compile`) -/

/-- Parse the decimal count of a `{n}` quantifier. -/
def parseCount (cs : List Char) : Option (ℕ × List Char) :=
  let ds := cs.takeWhile Char.isDigit
  if ds.isEmpty then Option.none
  else some (ds.foldl (fun a c => 10 * a + (c.toNat - 48)) 0,
             cs.dropWhile Char.isDigit)

/-- Parse a capture-group name up to the closing `>`. -/
def parseName : List Char → Option (List Char × List Char)
  | [] => Option.none
  | c :: rest =>
    if c = '>' then some ([], rest)
    else (parseName rest).map (fun r => (c :: r.1, r.2))

/-- Parse the body of a character class up to the closing `]`. -/
def parseClassBody : List Char → Option (List Char × List Char)
  | [] => Option.none
  | c :: rest =>
    if c = ']' then some ([], rest)
    else (parseClassBody rest).map (fun r => (c :: r.1, r.2))

/-- Parse one atom: a character class or a literal letter. -/
def parseAtom : List Char → Option (RTok × List Char)
  | [] => Option.none
  | c :: rest =>
    if c = '[' then
      (parseClassBody rest).map (fun r => (RTok.cls r.1, r.2))
    else if c.isAlpha then some (RTok.lit c, rest)
    else Option.none

/-- Parse an optional quantifier after an atom. -/
def parseQuantifier (t : RTok) (cs : List Char) : RElem × List Char :=
  match cs with
  | '+' :: rest => (RElem.plus t, rest)
  | '{' :: rest =>
    match parseCount rest with
    | some (n, rest2) =>
      match rest2 with
      | '}' :: rest3 => (RElem.rep t n, rest3)
      | _ => (RElem.one t, cs)
    | Option.none => (RElem.one t, cs)
  | _ => (RElem.one t, cs)

/-- Parse a whole pattern: a sequence of atoms and named groups, each group
wrapping one quantified atom.  Unsupported syntax parses to `Option.none`. -/
def parseElems : List Char → ℕ → Option RPattern
  | _, 0 => Option.none
  | [], _ + 1 => some []
  | '(' :: '?' :: 'P' :: '<' :: rest, fuel + 1 =>
    (parseName rest).bind (fun nr =>
      (parseAtom nr.2).bind (fun ar =>
        let er := parseQuantifier ar.1 ar.2
        match er.2 with
        | ')' :: rest4 =>
          (parseElems rest4 fuel).map
            (fun p => (some (String.mk nr.1), er.1) :: p)
        | _ => Option.none))
  | cs, fuel + 1 =>
    (parseAtom cs).bind (fun ar =>
      let er := parseQuantifier ar.1 ar.2
      (parseElems er.2 fuel).map (fun p => (Option.none, er.1) :: p))

/-- The group names of a parsed pattern in declaration order. -/
def groupNamesOf (p : RPattern) : List String :=
  p.filterMap Prod.fst

/-- Modelled from the spec: `regex.compile` of the third-party `regex`
library (not part of this repository).  Compiles a pattern string into a
`Matcher`; pattern shapes outside the modelled grammar compile to a matcher
that never matches. -/
def regexCompile (pat : String) : Matcher :=
  match parseElems pat.toList (pat.length + 1) with
  | some p => ⟨groupNamesOf p, fun s => reSearch p s.toList⟩
  | Option.none => ⟨[], fun _ => Option.none⟩

/-! ### Dual-orientation annotator: `matchSeqs` -/

/-- Python slice `s[a:b]` of a string. -/
def sliceStr (s : String) (a b : ℕ) : String :=
  ⟨(s.toList.drop a).take (b - a)⟩

/-- Python slice `l[a:b]` of an integer array. -/
def sliceNat (l : List ℕ) (a b : ℕ) : List ℕ :=
  (l.drop a).take (b - a)

/-- The accuracy cell `matchSeqs` computes for one matched group: the
default-encoding `qvalsToAccuracy` of the quality slice. -/
noncomputable def groupAccuracy (qslice : List ℕ) : Option ℝ :=
  qvalsToAccuracyNumbers (qslice.map Int.ofNat)

/-- The per-row loop body of `matchSeqs` (lines 634-666 of the source):
search the row's sequence; on failure search its reverse complement with
the quality array flipped; emit the match flag, the polarity, and per-group
value / quality slice / accuracy cells, with sentinels (`False`, `0`, empty
string, empty array, `-1`) when neither orientation matches. -/
noncomputable def matchRow (matcher : Matcher) (groupnames : List String)
    (add_polarity add_qvals add_accuracy : Bool) (match_col : String)
    (s : String) (qs : List ℕ) : List (String × Cell) :=
  let polarity_col := match_col ++ "_polarity"
  let found : Option (ℤ × String × List ℕ × ReMatchT) :=
    match matcher.search s with
    | some m => some (1, s, qs, m)
    | Option.none =>
      match matcher.search (reverseComplement s) with
      | some m => some (-1, reverseComplement s, qs.reverse, m)
      | Option.none => Option.none
  match found with
  | some (polarity, sch, qsu, m) =>
    (match_col, Cell.bool true) ::
    ((if add_polarity then [(polarity_col, Cell.int polarity)] else []) ++
     groupnames.flatMap (fun g =>
       (g, Cell.str (sliceStr sch (m.gstart g) (m.gend g))) ::
       ((if add_qvals then
           [(g ++ "_qvals", Cell.qarr (sliceNat qsu (m.gstart g) (m.gend g)))]
         else []) ++
        (if add_accuracy then
           [(g ++ "_accuracy",
             Cell.float (groupAccuracy (sliceNat qsu (m.gstart g) (m.gend g))))]
         else []))))
  | Option.none =>
    (match_col, Cell.bool false) ::
    ((if add_polarity then [(polarity_col, Cell.int 0)] else []) ++
     groupnames.flatMap (fun g =>
       (g, Cell.str "") ::
       ((if add_qvals then [(g ++ "_qvals", Cell.qarr [])] else []) ++
        (if add_accuracy then
           [(g ++ "_accuracy", Cell.float (some (-1)))]
         else []))))

/-- The output column labels `matchSeqs` plans to add (`newcols`). -/
def matchNewcols (match_col : String)
    (add_polarity add_group_cols add_accuracy add_qvals : Bool)
    (groupnames : List String) : List String :=
  [match_col] ++
  (if add_polarity then [match_col ++ "_polarity"] else []) ++
  (if add_group_cols then
     groupnames ++
     (if add_accuracy then groupnames.map (fun g => g ++ "_accuracy") else []) ++
     (if add_qvals then groupnames.map (fun g => g ++ "_qvals") else [])
   else [])

/-- `matchSeqs` from the source: with `match_str = None` return the input
frame unchanged; otherwise check the source column exists, optionally
IUPAC-expand and then compile the pattern, reject duplicate group names,
require a `<col_to_match>_qvals` column when accuracy or quality columns
are requested, reject column collisions unless `overwrite`, and return a
copy of the frame with the collided columns dropped and the per-row match
cells appended. -/
noncomputable def matchSeqs (df : DataFrame) (match_str : Option String)
    (col_to_match match_col : String)
    (add_polarity add_group_cols add_accuracy add_qvals expandIUPAC
      overwrite : Bool) : Except String DataFrame :=
  match match_str with
  | Option.none => Except.ok df
  | some ms0 =>
    if col_to_match ∈ df.columns then
      let ms := if expandIUPAC then re_expandIUPAC ms0 else ms0
      let matcher := regexCompile ms
      let groupnames := if add_group_cols then matcher.groupindex else []
      if add_group_cols = true ∧ ¬groupnames.Nodup then
        Except.error ("duplicate group names in " ++ ms)
      else if add_group_cols = true ∧ (add_accuracy = true ∨ add_qvals = true) ∧
          (col_to_match ++ "_qvals") ∉ df.columns then
        Except.error ("To use add_accuracy or add_qvals, you need a column " ++
          col_to_match ++ "_qvals")
      else
        let newcols := matchNewcols match_col add_polarity add_group_cols
          add_accuracy add_qvals groupnames
        let dup_cols := newcols.filter (fun c => c ∈ df.columns)
        if ¬overwrite = true ∧ dup_cols ≠ [] then
          Except.error ("df already contains some of the columns to add")
        else
          Except.ok
            ⟨df.columns.filter (fun c => c ∉ dup_cols) ++ newcols,
             df.rows.map (fun r =>
               r.filter (fun kv => kv.1 ∉ dup_cols) ++
               matchRow matcher groupnames add_polarity add_qvals add_accuracy
                 match_col (asStr (getCell r col_to_match))
                 (asQarr (getCell r (col_to_match ++ "_qvals"))))⟩
    else Except.error ("df lacks col_to_match column " ++ col_to_match)

/-! ### Alignment annotator: `alignSeqs` -/

/-- The interface of `dms_tools2.minimap2.TargetVariants` that `alignSeqs`
uses: the `variantsites_min_acc` attribute and the `call` hook, which may
rewrite the alignment. -/
structure TargetVariants where
  variantsites_min_acc : Option ℝ
  call : Alignment → Option (List ℕ) → String × Alignment

/-- The typed mutation lists returned by
`dms_tools2.minimap2.MutationCaller.call`. -/
structure MutLists where
  substitutions : List String
  insertions : List String
  deletions : List String

/-- The interface of `dms_tools2.minimap2.MutationCaller` that `alignSeqs`
uses. -/
structure MutationCaller where
  call : Alignment → MutLists

/-- The external-aligner interface of `dms_tools2.minimap2.Mapper` that
`alignSeqs` uses: one batched `map` call from the named queries to a
per-name best alignment, and the `target_isoforms` grouping. -/
structure Mapper where
  map : List (String × String) → String → Option Alignment
  target_isoforms : String → List String

/-- Sequentially map a fallible function over a list, aborting at the first
raised error (the Python `for` loop with `raise`/`assert` inside). -/
def mapExceptList {α β ε : Type} (f : α → Except ε β) : List α → Except ε (List β)
  | [] => Except.ok []
  | x :: xs =>
    match f x with
    | Except.error e => Except.error e
    | Except.ok y => (mapExceptList f xs).map (fun ys => y :: ys)

/-- The output column labels `alignSeqs` plans to add (`newcols`). -/
def alignNewcols (aligned_col : String)
    (add_alignment add_target add_cigar add_n_trimmed add_n_additional
      add_n_additional_difftarget has_targetvariants has_mutationcaller :
      Bool) : List String :=
  [aligned_col] ++
  (if add_alignment then [aligned_col ++ "_alignment"] else []) ++
  (if add_target then [aligned_col ++ "_target"] else []) ++
  (if add_cigar then [aligned_col ++ "_cigar"] else []) ++
  (if add_n_trimmed then
     [aligned_col ++ "_n_trimmed_query_start",
      aligned_col ++ "_n_trimmed_query_end",
      aligned_col ++ "_n_trimmed_target_start",
      aligned_col ++ "_n_trimmed_target_end"]
   else []) ++
  (if add_n_additional then [aligned_col ++ "_n_additional"] else []) ++
  (if add_n_additional_difftarget then
     [aligned_col ++ "_n_additional_difftarget"]
   else []) ++
  (if has_targetvariants then [aligned_col ++ "_target_variant"] else []) ++
  (if has_mutationcaller then
     [aligned_col ++ "_substitutions", aligned_col ++ "_insertions",
      aligned_col ++ "_deletions"]
   else [])

/-- The batched query set `alignSeqs` submits to the aligner: the
`(name, query)` pairs of every row whose query sequence is non-empty. -/
def alignQueries (df : DataFrame) (query_col : String) : List (String × String) :=
  df.rows.filterMap (fun r =>
    if asStr (getCell r query_col) ≠ "" then
      some (asStr (getCell r "name"), asStr (getCell r query_col))
    else Option.none)

/-- The per-name loop body of `alignSeqs` (lines 865-920 of the source).
With a returned alignment: assert the forward strand, let the
target-variant hook rewrite the alignment, call the mutation hook, then
emit flag, alignment, target, CIGAR, the four trim counts, and the two
additional-alignment counts.  Without one: emit the sentinel cells. -/
def alignRow (map_dict : String → Option Alignment)
    (target_isoforms : String → List String) (aligned_col : String)
    (add_alignment add_target add_cigar add_n_trimmed add_n_additional
      add_n_additional_difftarget : Bool)
    (targetvariants : Option TargetVariants)
    (mutationcaller : Option MutationCaller)
    (qvalsFor : String → Option (List ℕ)) (name : String) :
    Except String (List (String × Cell)) :=
  match map_dict name with
  | some a0 =>
    if a0.strand = 1 then
      let tvres : List (String × Cell) × Alignment :=
        match targetvariants with
        | some tv =>
          let r := tv.call a0 (qvalsFor name)
          ([(aligned_col ++ "_target_variant", Cell.str r.1)], r.2)
        | Option.none => ([], a0)
      let a := tvres.2
      let mutCells : List (String × Cell) :=
        match mutationcaller with
        | some mc =>
          [(aligned_col ++ "_substitutions", Cell.muts (mc.call a).substitutions),
           (aligned_col ++ "_insertions", Cell.muts (mc.call a).insertions),
           (aligned_col ++ "_deletions", Cell.muts (mc.call a).deletions)]
        | Option.none => []
      Except.ok
        (tvres.1 ++ mutCells ++
         [(aligned_col, Cell.bool true)] ++
         (if add_alignment then
            [(aligned_col ++ "_alignment", Cell.align (some a))]
          else []) ++
         (if add_target then [(aligned_col ++ "_target", Cell.str a.target)]
          else []) ++
         (if add_cigar then [(aligned_col ++ "_cigar", Cell.str a.cigar_str)]
          else []) ++
         (if add_n_trimmed then
            [(aligned_col ++ "_n_trimmed_query_start", Cell.int a.q_st),
             (aligned_col ++ "_n_trimmed_query_end", Cell.int (a.q_len - a.q_en)),
             (aligned_col ++ "_n_trimmed_target_start", Cell.int a.r_st),
             (aligned_col ++ "_n_trimmed_target_end", Cell.int (a.r_len - a.r_en))]
          else []) ++
         (if add_n_additional then
            [(aligned_col ++ "_n_additional", Cell.int a.additional.length)]
          else []) ++
         (if add_n_additional_difftarget then
            [(aligned_col ++ "_n_additional_difftarget",
              Cell.int ((a.additional.filter
                (fun a2 => a2.target ∉ target_isoforms a.target)).length))]
          else []))
    else Except.error ("method does not handle - polarity")
  | Option.none =>
    Except.ok
      ([(aligned_col, Cell.bool false)] ++
       (if add_alignment then
          [(aligned_col ++ "_alignment", Cell.align Option.none)]
        else []) ++
       (if add_target then [(aligned_col ++ "_target", Cell.str "")] else []) ++
       (if add_cigar then [(aligned_col ++ "_cigar", Cell.str "")] else []) ++
       (if add_n_trimmed then
          [(aligned_col ++ "_n_trimmed_query_start", Cell.int (-1)),
           (aligned_col ++ "_n_trimmed_query_end", Cell.int (-1)),
           (aligned_col ++ "_n_trimmed_target_start", Cell.int (-1)),
           (aligned_col ++ "_n_trimmed_target_end", Cell.int (-1))]
        else []) ++
       (if add_n_additional then [(aligned_col ++ "_n_additional", Cell.int (-1))]
        else []) ++
       (if add_n_additional_difftarget then
          [(aligned_col ++ "_n_additional_difftarget", Cell.int (-1))]
        else []) ++
       (match targetvariants with
        | some _ => [(aligned_col ++ "_target_variant", Cell.str "")]
        | Option.none => []) ++
       (match mutationcaller with
        | some _ =>
          [(aligned_col ++ "_substitutions", Cell.muts []),
           (aligned_col ++ "_insertions", Cell.muts []),
           (aligned_col ++ "_deletions", Cell.muts [])]
        | Option.none => []))

/-- Does the configured target-variant hook require per-row quality
arrays (`targetvariants.variantsites_min_acc is not None`)? -/
def tvNeedsQvals (targetvariants : Option TargetVariants) : Bool :=
  match targetvariants with
  | some tv => tv.variantsites_min_acc.isSome
  | Option.none => false

/-- The quality-array dictionary `alignSeqs` builds for the target-variant
hook (`pandas.Series(df[qvals_col].values, index=df.name).to_dict()`): a
per-name lookup, materialised only when `variantsites_min_acc` is set. -/
def qvalsForOf (df : DataFrame) (targetvariants : Option TargetVariants)
    (query_col : String) : String → Option (List ℕ) := fun n =>
  match targetvariants with
  | some tv =>
    if tv.variantsites_min_acc.isSome then
      some
        (((df.rows.find?
            (fun r => asStr (getCell r "name") == n)).map
          (fun r => asQarr (getCell r (query_col ++ "_qvals")))).getD [])
    else Option.none
  | Option.none => Option.none

/-- `alignSeqs` from the source: check the query column exists, require a
`<query_col>_qvals` column when the target-variant hook needs accuracies,
assert the planned columns are distinct, reject column collisions unless
`overwrite`, assert the `name` column is unique, submit one batched request
for all non-empty queries, then process every row (aborting the whole call
on a reverse-strand alignment) and return a copy of the frame with the
collided columns dropped and the per-row alignment cells appended. -/
def alignSeqs (df : DataFrame) (mapper : Mapper) (query_col aligned_col : String)
    (add_alignment add_target add_cigar add_n_trimmed add_n_additional
      add_n_additional_difftarget : Bool)
    (targetvariants : Option TargetVariants)
    (mutationcaller : Option MutationCaller) (overwrite : Bool) :
    Except String DataFrame :=
  if query_col ∈ df.columns then
    if tvNeedsQvals targetvariants = true ∧
        (query_col ++ "_qvals") ∉ df.columns then
      Except.error ("Cannot use variantsites_min_acc of targetvariants " ++
        "as there is not a column " ++ query_col ++ "_qvals")
    else
      let newcols := alignNewcols aligned_col add_alignment add_target
        add_cigar add_n_trimmed add_n_additional add_n_additional_difftarget
        targetvariants.isSome mutationcaller.isSome
      if ¬newcols.Nodup then Except.error ("assert: newcols not unique")
      else
        let dup_cols := newcols.filter (fun c => c ∈ df.columns)
        if ¬overwrite = true ∧ dup_cols ≠ [] then
          Except.error ("df already contains these columns")
        else if ¬(df.rows.map (fun r => asStr (getCell r "name"))).Nodup then
          Except.error ("name in df not unique")
        else
          let map_dict := mapper.map (alignQueries df query_col)
          (mapExceptList (fun r =>
              (alignRow map_dict mapper.target_isoforms aligned_col
                add_alignment add_target add_cigar add_n_trimmed
                add_n_additional add_n_additional_difftarget targetvariants
                mutationcaller (qvalsForOf df targetvariants query_col)
                (asStr (getCell r "name"))).map
                (fun cells => r.filter (fun kv => kv.1 ∉ dup_cols) ++ cells))
            df.rows).map
            (fun rows2 =>
              ⟨df.columns.filter (fun c => c ∉ dup_cols) ++ newcols, rows2⟩)
  else Except.error ("no query_col " ++ query_col)

/-- Well-formed group-column naming: the group names are distinct and no
requested column label collides with the match column, the polarity column,
or a suffixed column of another group.  (Real patterns satisfy this; it
rules out degenerate group names like `x` alongside `x_qvals`.) -/
def wfGroupCols (match_col : String) (gs : List String) : Prop :=
  gs.Nodup ∧
  (∀ g ∈ gs, g ≠ match_col ∧ g ++ "_qvals" ≠ match_col ∧
    g ++ "_accuracy" ≠ match_col ∧ g ≠ match_col ++ "_polarity") ∧
  (∀ g ∈ gs, ∀ h ∈ gs, g ≠ h →
    g ≠ h ++ "_qvals" ∧ g ≠ h ++ "_accuracy")

/-- The shape of the group cells of one row when value, quality and
accuracy columns are all requested. -/
def groupCells (v q a : String → Cell) (gs : List String) :
    List (String × Cell) :=
  gs.flatMap (fun g =>
    (g, v g) :: (g ++ "_qvals", q g) :: [(g ++ "_accuracy", a g)])

/-! ## Theorems -/

/-! ### Generic helper lemmas -/

theorem matchRow_eq_fwd (m : Matcher) (gs : List String) (mc s : String)
    (qs : List ℕ) (mt : ReMatchT) (hf : m.search s = some mt) :
    matchRow m gs true true true mc s qs =
      (mc, Cell.bool true) :: (mc ++ "_polarity", Cell.int 1) ::
      groupCells
        (fun g => Cell.str (sliceStr s (mt.gstart g) (mt.gend g)))
        (fun g => Cell.qarr (sliceNat qs (mt.gstart g) (mt.gend g)))
        (fun g => Cell.float (groupAccuracy (sliceNat qs (mt.gstart g) (mt.gend g))))
        gs := by
  unfold matchRow
  rw [hf]
  simp [groupCells]

theorem matchRow_eq_rev (m : Matcher) (gs : List String) (mc s : String)
    (qs : List ℕ) (mt : ReMatchT) (hf : m.search s = Option.none)
    (hr : m.search (reverseComplement s) = some mt) :
    matchRow m gs true true true mc s qs =
      (mc, Cell.bool true) :: (mc ++ "_polarity", Cell.int (-1)) ::
      groupCells
        (fun g => Cell.str
          (sliceStr (reverseComplement s) (mt.gstart g) (mt.gend g)))
        (fun g => Cell.qarr
          (sliceNat qs.reverse (mt.gstart g) (mt.gend g)))
        (fun g => Cell.float
          (groupAccuracy (sliceNat qs.reverse (mt.gstart g) (mt.gend g))))
        gs := by
  unfold matchRow
  rw [hf, hr]
  simp [groupCells]

theorem matchRow_eq_unmatched (m : Matcher) (gs : List String) (mc s : String)
    (qs : List ℕ) (hf : m.search s = Option.none)
    (hr : m.search (reverseComplement s) = Option.none) :
    matchRow m gs true true true mc s qs =
      (mc, Cell.bool false) :: (mc ++ "_polarity", Cell.int 0) ::
      groupCells (fun _ => Cell.str "") (fun _ => Cell.qarr [])
        (fun _ => Cell.float (some (-1))) gs := by
  unfold matchRow
  rw [hf, hr]
  simp [groupCells]

theorem String.data_append_eq (a b : String) : (a ++ b).data = a.data ++ b.data := rfl

theorem string_append_cancel {a u v : String} (h : a ++ u = a ++ v) : u = v := by
  have hd : a.data ++ u.data = a.data ++ v.data := by
    have := congrArg String.data h
    simpa [String.data_append_eq] using this
  have h2 := List.append_cancel_left hd
  cases u; cases v; exact congrArg String.mk h2

theorem string_append_cancel_right {a b u : String} (h : a ++ u = b ++ u) :
    a = b := by
  have hd : a.data ++ u.data = b.data ++ u.data := by
    have := congrArg String.data h
    simpa [String.data_append_eq] using this
  have h2 := List.append_cancel_right hd
  cases a; cases b; exact congrArg String.mk h2

theorem string_self_ne_append {s t : String} (ht : t.data ≠ []) :
    s ≠ s ++ t := by
  intro h
  have hd : s.data = s.data ++ t.data := by
    have := congrArg String.data h
    simpa [String.data_append_eq] using this
  have : s.data.length = s.data.length + t.data.length := by
    conv_lhs => rw [hd]
    simp
  have : t.data.length = 0 := by omega
  exact ht (List.length_eq_zero.mp this)

/-- Two strings with fixed distinct suffixes differ, provided the suffixes
differ at some position counted from the right end. -/
theorem string_append_ne_append {u v : String} (i : ℕ)
    (hu : i < u.data.reverse.length) (hv : i < v.data.reverse.length)
    (hne : u.data.reverse.get? i ≠ v.data.reverse.get? i)
    (a b : String) : a ++ u ≠ b ++ v := by
  intro h
  have hd : a.data ++ u.data = b.data ++ v.data := by
    have := congrArg String.data h
    simpa [String.data_append_eq] using this
  have hrev : u.data.reverse ++ a.data.reverse =
      v.data.reverse ++ b.data.reverse := by
    rw [← List.reverse_append, ← List.reverse_append, hd]
  have h1 : (u.data.reverse ++ a.data.reverse).get? i = u.data.reverse.get? i :=
    List.get?_append hu
  have h2 : (v.data.reverse ++ b.data.reverse).get? i = v.data.reverse.get? i :=
    List.get?_append hv
  rw [hrev] at h1
  exact hne (h1.symm.trans h2)

theorem ne_qvals_accuracy (a b : String) : a ++ "_qvals" ≠ b ++ "_accuracy" :=
  string_append_ne_append 0 (by decide) (by decide) (by decide) a b

theorem ne_accuracy_qvals (a b : String) : a ++ "_accuracy" ≠ b ++ "_qvals" :=
  string_append_ne_append 0 (by decide) (by decide) (by decide) a b

theorem ne_qvals_polarity (a b : String) : a ++ "_qvals" ≠ b ++ "_polarity" :=
  string_append_ne_append 0 (by decide) (by decide) (by decide) a b

theorem ne_accuracy_polarity (a b : String) :
    a ++ "_accuracy" ≠ b ++ "_polarity" :=
  string_append_ne_append 1 (by decide) (by decide) (by decide) a b

theorem ne_self_polarity (s : String) : s ≠ s ++ "_polarity" :=
  string_self_ne_append (by decide)

theorem ne_self_qvals (s : String) : s ≠ s ++ "_qvals" :=
  string_self_ne_append (by decide)

theorem ne_self_accuracy (s : String) : s ≠ s ++ "_accuracy" :=
  string_self_ne_append (by decide)

theorem append_ne_of_suffix_ne (a : String) {u v : String} (h : u ≠ v) :
    a ++ u ≠ a ++ v :=
  fun heq => h (string_append_cancel heq)

theorem getCell_cons_eq {k : String} {c : Cell} {rest : List (String × Cell)} :
    getCell ((k, c) :: rest) k = c := by simp [getCell]

theorem getCell_cons_ne {k key : String} {c : Cell}
    {rest : List (String × Cell)} (h : k ≠ key) :
    getCell ((k, c) :: rest) key = getCell rest key := by
  simp [getCell, h]

/-! ### Accuracy-value lemmas -/

theorem perBase_nonneg {z : ℤ} (hz : 0 ≤ z) : 0 ≤ perBase z := by
  unfold perBase
  have hexp : (z : ℝ) / (-10) ≤ 0 := by
    apply div_nonpos_of_nonneg_of_nonpos
    · exact_mod_cast hz
    · norm_num
  have h10 : (10 : ℝ) ^ ((z : ℝ) / (-10)) ≤ 1 :=
    Real.rpow_le_one_of_one_le_of_nonpos (by norm_num) hexp
  linarith

theorem qvalsToAccuracyNumbers_nonneg_entries {qs : List ℤ}
    (hq : ∀ z ∈ qs, 0 ≤ z) {x : ℝ}
    (hx : qvalsToAccuracyNumbers qs = some x) : 0 ≤ x := by
  unfold qvalsToAccuracyNumbers at hx
  by_cases hlen : qs.length = 0
  · simp [hlen] at hx
  · simp only [hlen, if_false] at hx
    have hsum : 0 ≤ (qs.map perBase).sum := by
      apply List.sum_nonneg
      intro y hy
      obtain ⟨z, hz, rfl⟩ := List.mem_map.mp hy
      exact perBase_nonneg (hq z hz)
    have : 0 ≤ ((qs.map perBase).sum) / (qs.length : ℝ) :=
      div_nonneg hsum (by positivity)
    have hx2 := hx
    injection hx2 with h
    linarith [h ▸ this]

/-- The accuracy `matchSeqs` stores for a matched group is never the `-1`
sentinel: it is `nan` on an empty slice and a mean of probabilities (hence
nonnegative) otherwise. -/
theorem groupAccuracy_ne_neg_one (qs : List ℕ) :
    groupAccuracy qs ≠ some (-1) := by
  unfold groupAccuracy
  intro h
  have hx : (0 : ℝ) ≤ -1 := by
    apply qvalsToAccuracyNumbers_nonneg_entries _ h
    intro z hz
    obtain ⟨n, _, rfl⟩ := List.mem_map.mp hz
    exact Int.ofNat_nonneg n
  linarith

/-! ### Lookup lemmas for the per-group cells -/

theorem getCell_groupCells {v q a : String → Cell} {gs : List String}
    {g : String} (hg : g ∈ gs) (hnd : gs.Nodup)
    (hcross : ∀ g2 ∈ gs, ∀ h2 ∈ gs, g2 ≠ h2 →
      g2 ≠ h2 ++ "_qvals" ∧ g2 ≠ h2 ++ "_accuracy") :
    getCell (groupCells v q a gs) g = v g ∧
    getCell (groupCells v q a gs) (g ++ "_qvals") = q g ∧
    getCell (groupCells v q a gs) (g ++ "_accuracy") = a g := by
  induction gs with
  | nil => cases hg
  | cons h t ih =>
    have hnd2 := List.nodup_cons.mp hnd
    by_cases hgh : g = h
    · subst hgh
      refine ⟨?_, ?_, ?_⟩
      · simp [groupCells, getCell]
      · rw [groupCells, List.flatMap_cons]
        simp only [List.cons_append, List.nil_append]
        rw [getCell_cons_ne (ne_self_qvals g), getCell_cons_eq]
      · rw [groupCells, List.flatMap_cons]
        simp only [List.cons_append, List.nil_append]
        rw [getCell_cons_ne (ne_self_accuracy g),
          getCell_cons_ne
            (fun heq => absurd (string_append_cancel heq) (by decide)),
          getCell_cons_eq]
    · have hgt : g ∈ t := by
        cases List.mem_cons.mp hg with
        | inl h2 => exact absurd h2 hgh
        | inr h2 => exact h2
      have hmem : h ∈ h :: t := List.mem_cons_self h t
      have hgmem : g ∈ h :: t := hg
      have hcg := hcross g hgmem h hmem hgh
      have hch := hcross h hmem g hgmem (Ne.symm hgh)
      have ihr := ih hgt hnd2.2
        (fun g2 hg2 h2 hh2 => hcross g2 (List.mem_cons_of_mem h hg2)
          h2 (List.mem_cons_of_mem h hh2))
      rw [groupCells, List.flatMap_cons]
      simp only [List.cons_append, List.nil_append]
      refine ⟨?_, ?_, ?_⟩
      · rw [getCell_cons_ne (Ne.symm hgh),
          getCell_cons_ne (Ne.symm hcg.1),
          getCell_cons_ne (Ne.symm hcg.2)]
        exact ihr.1
      · rw [getCell_cons_ne hch.1,
          getCell_cons_ne
            (fun heq => hgh (string_append_cancel_right heq).symm),
          getCell_cons_ne (ne_accuracy_qvals h g)]
        exact ihr.2.1
      · rw [getCell_cons_ne hch.2,
          getCell_cons_ne (ne_qvals_accuracy h g),
          getCell_cons_ne
            (fun heq => hgh (string_append_cancel_right heq).symm)]
        exact ihr.2.2

/-- Claim C10: calling `matchSeqs` with `match_str = None` returns the
input data frame itself unchanged, with no checks performed and no error
raised, regardless of all other options. -/
theorem matchSeqs_none_returns_df (df : DataFrame)
    (col_to_match match_col : String)
    (add_polarity add_group_cols add_accuracy add_qvals expandIUPAC
      overwrite : Bool) :
    matchSeqs df Option.none col_to_match match_col add_polarity
      add_group_cols add_accuracy add_qvals expandIUPAC overwrite =
      Except.ok df := rfl

/-- Claim C4: on a non-empty quality vector, `qvalsToAccuracy` returns the
arithmetic mean of the per-base correctness probabilities
`1 - 10^(-Q/10)`; on an empty array or an empty string it returns the
`nan` sentinel (`Option.none`), never zero and never an error, under every
encoding string. -/
theorem qvalsToAccuracy_mean_and_empty :
    (∀ qs : List ℤ, qs ≠ [] →
      qvalsToAccuracy (QVals.array qs) "numbers" =
        Except.ok (some (((qs.map perBase).sum) / (qs.length : ℝ)))) ∧
    (∀ encoding : String,
      qvalsToAccuracy (QVals.array []) encoding = Except.ok Option.none ∧
      qvalsToAccuracy (QVals.str "") encoding = Except.ok Option.none) := by
  constructor
  · intro qs hqs
    have hlen : qs.length ≠ 0 := by simpa using hqs
    simp [qvalsToAccuracy, hlen]
  · intro encoding
    constructor
    · by_cases h : encoding = "numbers" <;> simp [qvalsToAccuracy, h]
    · by_cases h : encoding = "numbers" <;>
        by_cases h2 : encoding = "sanger" <;>
          simp [qvalsToAccuracy, h, h2]

/-- Witness for C4 at the spec's scenario inputs `[13, 77, 93]` and `[]`. -/
theorem qvalsToAccuracy_mean_and_empty_witness :
    (([13, 77, 93] : List ℤ) ≠ [] ∧
      qvalsToAccuracy (QVals.array [13, 77, 93]) "numbers" =
        Except.ok (some (((([13, 77, 93] : List ℤ).map perBase).sum) /
          ((([13, 77, 93] : List ℤ).length : ℕ) : ℝ)))) ∧
    qvalsToAccuracy (QVals.array []) "sanger" = Except.ok Option.none :=
  ⟨⟨by decide, qvalsToAccuracy_mean_and_empty.1 [13, 77, 93] (by decide)⟩,
   (qvalsToAccuracy_mean_and_empty.2 "sanger").1⟩

/-- Claim C2: running `matchSeqs` with the pattern
`ACG(?P<barcode>N{3})(?P<read>N+)CTT` on a row whose sequence is
`ACGTTCACGCTT` yields a match in the forward orientation with polarity
`+1`, group `barcode = "TTC"` and group `read = "ACG"` (the IUPAC codes
being expanded first). -/
theorem matchSeqs_scenario_forward :
    matchSeqs
      ⟨["CCS"], [[("CCS", Cell.str "ACGTTCACGCTT")]]⟩
      (some "ACG(?P<barcode>N{3})(?P<read>N+)CTT") "CCS" "matched"
      true true false false true false =
    Except.ok
      ⟨["CCS", "matched", "matched_polarity", "barcode", "read"],
       [[("CCS", Cell.str "ACGTTCACGCTT"),
         ("matched", Cell.bool true),
         ("matched_polarity", Cell.int 1),
         ("barcode", Cell.str "TTC"),
         ("read", Cell.str "ACG")]]⟩ := rfl

/-- Claim C1: when the matcher fails on the row's sequence but matches its
reverse complement, `matchSeqs`' row processing reports polarity `-1` and
takes every group value, quality slice and accuracy from the
reverse-complemented sequence and the reversed quality array. -/
theorem matchRow_reverse_complement (m : Matcher) (groupnames : List String)
    (add_polarity add_qvals add_accuracy : Bool) (match_col : String)
    (s : String) (qs : List ℕ) (mt : ReMatchT)
    (hfwd : m.search s = Option.none)
    (hrev : m.search (reverseComplement s) = some mt) :
    matchRow m groupnames add_polarity add_qvals add_accuracy match_col s qs =
      (match_col, Cell.bool true) ::
      ((if add_polarity then [(match_col ++ "_polarity", Cell.int (-1))]
        else []) ++
       groupnames.flatMap (fun g =>
         (g, Cell.str
            (sliceStr (reverseComplement s) (mt.gstart g) (mt.gend g))) ::
         ((if add_qvals then
             [(g ++ "_qvals",
               Cell.qarr (sliceNat qs.reverse (mt.gstart g) (mt.gend g)))]
           else []) ++
          (if add_accuracy then
             [(g ++ "_accuracy",
               Cell.float
                 (groupAccuracy
                   (sliceNat qs.reverse (mt.gstart g) (mt.gend g))))]
           else [])))) := by
  unfold matchRow
  rw [hfwd, hrev]

/-- Witness for C1: the pattern `A(?P<g>[ACGT]{1})` does not match `GT`
but matches its reverse complement `AC`, so the row is annotated with
polarity `-1` and with group cells sliced from the reverse complement. -/
theorem matchRow_reverse_complement_witness :
    (regexCompile "A(?P<g>[ACGT]{1})").search "GT" = Option.none ∧
    (regexCompile "A(?P<g>[ACGT]{1})").search (reverseComplement "GT") =
      some ⟨0, 2, [("g", 1, 2)]⟩ ∧
    getCell
      (matchRow (regexCompile "A(?P<g>[ACGT]{1})") ["g"] true true true
        "m" "GT" [30, 40]) "m_polarity" = Cell.int (-1) ∧
    getCell
      (matchRow (regexCompile "A(?P<g>[ACGT]{1})") ["g"] true true true
        "m" "GT" [30, 40]) "g" = Cell.str "C" ∧
    getCell
      (matchRow (regexCompile "A(?P<g>[ACGT]{1})") ["g"] true true true
        "m" "GT" [30, 40]) "g_qvals" = Cell.qarr [30] := by
  have h := matchRow_reverse_complement (regexCompile "A(?P<g>[ACGT]{1})")
    ["g"] true true true "m" "GT" [30, 40] ⟨0, 2, [("g", 1, 2)]⟩ rfl rfl
  refine ⟨rfl, rfl, ?_, ?_, ?_⟩ <;> rw [h] <;> rfl

/-- Counterexample to claim C3 as stated: for a pattern with no named
groups (here `ACG`, which matches the row `ACG`), the all-sentinel
condition holds vacuously while `matched` is `true`, so the claimed
three-way equivalence fails. -/
theorem matchRow_sentinel_equiv_cex :
    ¬((getCell (matchRow (regexCompile "ACG") [] true true true "matched"
          "ACG" []) "matched" = Cell.bool false) ↔
      (∀ g ∈ ([] : List String),
        getCell (matchRow (regexCompile "ACG") [] true true true "matched"
          "ACG" []) g = Cell.str "" ∧
        getCell (matchRow (regexCompile "ACG") [] true true true "matched"
          "ACG" []) (g ++ "_qvals") = Cell.qarr [] ∧
        getCell (matchRow (regexCompile "ACG") [] true true true "matched"
          "ACG" []) (g ++ "_accuracy") = Cell.float (some (-1)))) := by
  intro h
  have h2 := h.mpr (fun g hg => absurd hg (List.not_mem_nil g))
  have h3 : Cell.bool true = Cell.bool false := by
    have h4 : getCell (matchRow (regexCompile "ACG") [] true true true
        "matched" "ACG" []) "matched" = Cell.bool true := rfl
    rw [← h4]
    exact h2
  simp at h3

/-- Claim C3 (amended): provided the pattern declares at least one named
group (and the polarity, value, quality and accuracy columns are all
requested, with non-colliding column names), the three conditions are
equivalent for every row: polarity is 0, matched is false, and every
group column holds its sentinel (empty value, empty quality slice,
accuracy `-1`). -/
theorem matchRow_sentinel_equiv (m : Matcher) (gs : List String)
    (mc s : String) (qs : List ℕ) (hne : gs ≠ [])
    (hwf : wfGroupCols mc gs) :
    ((getCell (matchRow m gs true true true mc s qs) (mc ++ "_polarity") =
        Cell.int 0 ↔
      getCell (matchRow m gs true true true mc s qs) mc = Cell.bool false) ∧
     (getCell (matchRow m gs true true true mc s qs) mc = Cell.bool false ↔
      ∀ g ∈ gs,
        getCell (matchRow m gs true true true mc s qs) g = Cell.str "" ∧
        getCell (matchRow m gs true true true mc s qs) (g ++ "_qvals") =
          Cell.qarr [] ∧
        getCell (matchRow m gs true true true mc s qs) (g ++ "_accuracy") =
          Cell.float (some (-1)))) := by
  obtain ⟨hnd, hself, hcross⟩ := hwf
  have hmatched :
      ∀ (pol : ℤ) (v qf : String → Cell) (sl : String → List ℕ),
        pol ≠ 0 →
        ((getCell ((mc, Cell.bool true) :: (mc ++ "_polarity", Cell.int pol) ::
            groupCells v qf
              (fun g => Cell.float (groupAccuracy (sl g))) gs)
            (mc ++ "_polarity") = Cell.int 0 ↔
          getCell ((mc, Cell.bool true) :: (mc ++ "_polarity", Cell.int pol) ::
            groupCells v qf
              (fun g => Cell.float (groupAccuracy (sl g))) gs) mc =
            Cell.bool false) ∧
         (getCell ((mc, Cell.bool true) :: (mc ++ "_polarity", Cell.int pol) ::
            groupCells v qf
              (fun g => Cell.float (groupAccuracy (sl g))) gs) mc =
            Cell.bool false ↔
          ∀ g ∈ gs,
            getCell ((mc, Cell.bool true) ::
              (mc ++ "_polarity", Cell.int pol) ::
              groupCells v qf
                (fun g => Cell.float (groupAccuracy (sl g))) gs) g =
              Cell.str "" ∧
            getCell ((mc, Cell.bool true) ::
              (mc ++ "_polarity", Cell.int pol) ::
              groupCells v qf
                (fun g => Cell.float (groupAccuracy (sl g))) gs)
              (g ++ "_qvals") = Cell.qarr [] ∧
            getCell ((mc, Cell.bool true) ::
              (mc ++ "_polarity", Cell.int pol) ::
              groupCells v qf
                (fun g => Cell.float (groupAccuracy (sl g))) gs)
              (g ++ "_accuracy") = Cell.float (some (-1)))) := by
    intro pol v qf sl hpol
    have hmc : getCell ((mc, Cell.bool true) ::
        (mc ++ "_polarity", Cell.int pol) ::
        groupCells v qf (fun g => Cell.float (groupAccuracy (sl g))) gs) mc =
        Cell.bool true := getCell_cons_eq
    have hpc : getCell ((mc, Cell.bool true) ::
        (mc ++ "_polarity", Cell.int pol) ::
        groupCells v qf (fun g => Cell.float (groupAccuracy (sl g))) gs)
        (mc ++ "_polarity") = Cell.int pol := by
      rw [getCell_cons_ne (ne_self_polarity mc), getCell_cons_eq]
    constructor
    · rw [hmc, hpc]
      simp [hpol]
    · rw [hmc]
      constructor
      · intro hcontr
        simp at hcontr
      · intro hall
        obtain ⟨g0, hg0⟩ := List.exists_mem_of_ne_nil gs hne
        have hacc := (hall g0 hg0).2.2
        have hk := getCell_groupCells
          (v := v) (q := qf)
          (a := fun g => Cell.float (groupAccuracy (sl g))) hg0 hnd hcross
        rw [getCell_cons_ne (Ne.symm (hself g0 hg0).2.2.1),
          getCell_cons_ne (Ne.symm (ne_accuracy_polarity g0 mc)),
          hk.2.2] at hacc
        injection hacc with hacc2
        exact (groupAccuracy_ne_neg_one (sl g0) hacc2).elim
  rcases hf : m.search s with _ | mt
  · rcases hr : m.search (reverseComplement s) with _ | mt
    · rw [matchRow_eq_unmatched m gs mc s qs hf hr]
      have hmc : getCell ((mc, Cell.bool false) ::
          (mc ++ "_polarity", Cell.int 0) ::
          groupCells (fun _ => Cell.str "") (fun _ => Cell.qarr [])
            (fun _ => Cell.float (some (-1))) gs) mc = Cell.bool false :=
        getCell_cons_eq
      have hpc : getCell ((mc, Cell.bool false) ::
          (mc ++ "_polarity", Cell.int 0) ::
          groupCells (fun _ => Cell.str "") (fun _ => Cell.qarr [])
            (fun _ => Cell.float (some (-1))) gs) (mc ++ "_polarity") =
          Cell.int 0 := by
        rw [getCell_cons_ne (ne_self_polarity mc), getCell_cons_eq]
      refine ⟨by rw [hmc, hpc]; exact iff_of_true rfl rfl, ?_⟩
      rw [hmc]
      refine ⟨fun _ g hg => ?_, fun _ => rfl⟩
      have hk := getCell_groupCells
        (v := fun _ => Cell.str "") (q := fun _ => Cell.qarr [])
        (a := fun _ => Cell.float (some (-1))) hg hnd hcross
      refine ⟨?_, ?_, ?_⟩
      · rw [getCell_cons_ne (Ne.symm (hself g hg).1),
          getCell_cons_ne (Ne.symm (hself g hg).2.2.2), hk.1]
      · rw [getCell_cons_ne (Ne.symm (hself g hg).2.1),
          getCell_cons_ne (Ne.symm (ne_qvals_polarity g mc)), hk.2.1]
      · rw [getCell_cons_ne (Ne.symm (hself g hg).2.2.1),
          getCell_cons_ne (Ne.symm (ne_accuracy_polarity g mc)), hk.2.2]
    · rw [matchRow_eq_rev m gs mc s qs mt hf hr]
      exact hmatched (-1) _ _ _ (by norm_num)
  · rw [matchRow_eq_fwd m gs mc s qs mt hf]
    exact hmatched 1 _ _ _ (by norm_num)

/-- Witness for the amended C3 at a concrete matched row and a concrete
unmatched row, with one named group `g`. -/
theorem matchRow_sentinel_equiv_witness :
    (["g"] : List String) ≠ [] ∧ wfGroupCols "matched" ["g"] ∧
    ((getCell (matchRow (regexCompile "A(?P<g>[ACGT]{2})") ["g"] true true
        true "matched" "TAGG" [1, 2, 3, 4]) ("matched" ++ "_polarity") =
        Cell.int 0 ↔
      getCell (matchRow (regexCompile "A(?P<g>[ACGT]{2})") ["g"] true true
        true "matched" "TAGG" [1, 2, 3, 4]) "matched" = Cell.bool false) ∧
     (getCell (matchRow (regexCompile "A(?P<g>[ACGT]{2})") ["g"] true true
        true "matched" "TAGG" [1, 2, 3, 4]) "matched" = Cell.bool false ↔
      ∀ g ∈ (["g"] : List String),
        getCell (matchRow (regexCompile "A(?P<g>[ACGT]{2})") ["g"] true true
          true "matched" "TAGG" [1, 2, 3, 4]) g = Cell.str "" ∧
        getCell (matchRow (regexCompile "A(?P<g>[ACGT]{2})") ["g"] true true
          true "matched" "TAGG" [1, 2, 3, 4]) (g ++ "_qvals") =
          Cell.qarr [] ∧
        getCell (matchRow (regexCompile "A(?P<g>[ACGT]{2})") ["g"] true true
          true "matched" "TAGG" [1, 2, 3, 4]) (g ++ "_accuracy") =
          Cell.float (some (-1)))) :=
  ⟨by decide, by unfold wfGroupCols; decide,
   matchRow_sentinel_equiv (regexCompile "A(?P<g>[ACGT]{2})") ["g"]
     "matched" "TAGG" [1, 2, 3, 4] (by decide)
     (by unfold wfGroupCols; decide)⟩

/-- Claim C5: scoring a Sanger-encoded quality string equals scoring the
numeric vector obtained by subtracting 33 from each character's code
point. -/
theorem qvalsToAccuracy_sanger_decodes (s : String) :
    qvalsToAccuracy (QVals.str s) "sanger" =
      qvalsToAccuracy
        (QVals.array (s.toList.map (fun c => (c.toNat : ℤ) - 33)))
        "numbers" := by
  have hlen : (s.toList.map (fun c => (c.toNat : ℤ) - 33)).length = s.length := by
    rw [List.length_map]; rfl
  by_cases h : s.length = 0 <;> simp [qvalsToAccuracy, h, hlen]

/-- Witness for C5 at the spec's scenario string `.n~`. -/
theorem qvalsToAccuracy_sanger_decodes_witness :
    qvalsToAccuracy (QVals.str ".n~") "sanger" =
      qvalsToAccuracy
        (QVals.array ((".n~").toList.map (fun c => (c.toNat : ℤ) - 33)))
        "numbers" :=
  qvalsToAccuracy_sanger_decodes ".n~"

/-- Claim C7: for an aligned row the four trim counts are the query start
offset, query length minus query end, target start offset, and target
length minus target end of the best alignment, each `0` exactly when the
alignment is end-to-end on that side; for a row without a returned
alignment, the four trim counts are `-1` and every other dependent column
gets its type-appropriate sentinel (`False` flag, no alignment record,
empty strings, `-1` counts, empty mutation lists). -/
theorem alignRow_trims_and_sentinels (md : String → Option Alignment)
    (iso : String → List String) (ac : String) (tvv : TargetVariants)
    (mcc : MutationCaller) (qf : String → Option (List ℕ)) (name : String) :
    (∀ a : Alignment, md name = some a → a.strand = 1 →
      ∃ cells,
        alignRow md iso ac true true true true true true Option.none
          Option.none qf name = Except.ok cells ∧
        getCell cells (ac ++ "_n_trimmed_query_start") = Cell.int a.q_st ∧
        getCell cells (ac ++ "_n_trimmed_query_end") =
          Cell.int (a.q_len - a.q_en) ∧
        getCell cells (ac ++ "_n_trimmed_target_start") = Cell.int a.r_st ∧
        getCell cells (ac ++ "_n_trimmed_target_end") =
          Cell.int (a.r_len - a.r_en) ∧
        (getCell cells (ac ++ "_n_trimmed_query_start") = Cell.int 0 ↔
          a.q_st = 0) ∧
        (getCell cells (ac ++ "_n_trimmed_query_end") = Cell.int 0 ↔
          a.q_en = a.q_len) ∧
        (getCell cells (ac ++ "_n_trimmed_target_start") = Cell.int 0 ↔
          a.r_st = 0) ∧
        (getCell cells (ac ++ "_n_trimmed_target_end") = Cell.int 0 ↔
          a.r_en = a.r_len)) ∧
    (md name = Option.none →
      alignRow md iso ac true true true true true true (some tvv) (some mcc)
        qf name = Except.ok
          [(ac, Cell.bool false),
           (ac ++ "_alignment", Cell.align Option.none),
           (ac ++ "_target", Cell.str ""),
           (ac ++ "_cigar", Cell.str ""),
           (ac ++ "_n_trimmed_query_start", Cell.int (-1)),
           (ac ++ "_n_trimmed_query_end", Cell.int (-1)),
           (ac ++ "_n_trimmed_target_start", Cell.int (-1)),
           (ac ++ "_n_trimmed_target_end", Cell.int (-1)),
           (ac ++ "_n_additional", Cell.int (-1)),
           (ac ++ "_n_additional_difftarget", Cell.int (-1)),
           (ac ++ "_target_variant", Cell.str ""),
           (ac ++ "_substitutions", Cell.muts []),
           (ac ++ "_insertions", Cell.muts []),
           (ac ++ "_deletions", Cell.muts [])]) := by
  constructor
  · intro a ha hstrand
    have heq : alignRow md iso ac true true true true true true Option.none
        Option.none qf name = Except.ok
          [(ac, Cell.bool true),
           (ac ++ "_alignment", Cell.align (some a)),
           (ac ++ "_target", Cell.str a.target),
           (ac ++ "_cigar", Cell.str a.cigar_str),
           (ac ++ "_n_trimmed_query_start", Cell.int a.q_st),
           (ac ++ "_n_trimmed_query_end", Cell.int (a.q_len - a.q_en)),
           (ac ++ "_n_trimmed_target_start", Cell.int a.r_st),
           (ac ++ "_n_trimmed_target_end", Cell.int (a.r_len - a.r_en)),
           (ac ++ "_n_additional", Cell.int a.additional.length),
           (ac ++ "_n_additional_difftarget",
             Cell.int ((a.additional.filter
               (fun a2 => a2.target ∉ iso a.target)).length))] := by
      simp [alignRow, ha, hstrand]
    refine ⟨_, heq, ?_⟩
    have h1 : getCell
        [(ac, Cell.bool true),
         (ac ++ "_alignment", Cell.align (some a)),
         (ac ++ "_target", Cell.str a.target),
         (ac ++ "_cigar", Cell.str a.cigar_str),
         (ac ++ "_n_trimmed_query_start", Cell.int a.q_st),
         (ac ++ "_n_trimmed_query_end", Cell.int (a.q_len - a.q_en)),
         (ac ++ "_n_trimmed_target_start", Cell.int a.r_st),
         (ac ++ "_n_trimmed_target_end", Cell.int (a.r_len - a.r_en)),
         (ac ++ "_n_additional", Cell.int a.additional.length),
         (ac ++ "_n_additional_difftarget",
           Cell.int ((a.additional.filter
             (fun a2 => a2.target ∉ iso a.target)).length))]
        (ac ++ "_n_trimmed_query_start") = Cell.int a.q_st := by
      rw [getCell_cons_ne (string_self_ne_append (by decide)),
        getCell_cons_ne (append_ne_of_suffix_ne ac (by decide)),
        getCell_cons_ne (append_ne_of_suffix_ne ac (by decide)),
        getCell_cons_ne (append_ne_of_suffix_ne ac (by decide)),
        getCell_cons_eq]
    have h2 : getCell
        [(ac, Cell.bool true),
         (ac ++ "_alignment", Cell.align (some a)),
         (ac ++ "_target", Cell.str a.target),
         (ac ++ "_cigar", Cell.str a.cigar_str),
         (ac ++ "_n_trimmed_query_start", Cell.int a.q_st),
         (ac ++ "_n_trimmed_query_end", Cell.int (a.q_len - a.q_en)),
         (ac ++ "_n_trimmed_target_start", Cell.int a.r_st),
         (ac ++ "_n_trimmed_target_end", Cell.int (a.r_len - a.r_en)),
         (ac ++ "_n_additional", Cell.int a.additional.length),
         (ac ++ "_n_additional_difftarget",
           Cell.int ((a.additional.filter
             (fun a2 => a2.target ∉ iso a.target)).length))]
        (ac ++ "_n_trimmed_query_end") = Cell.int (a.q_len - a.q_en) := by
      rw [getCell_cons_ne (string_self_ne_append (by decide)),
        getCell_cons_ne (append_ne_of_suffix_ne ac (by decide)),
        getCell_cons_ne (append_ne_of_suffix_ne ac (by decide)),
        getCell_cons_ne (append_ne_of_suffix_ne ac (by decide)),
        getCell_cons_ne (append_ne_of_suffix_ne ac (by decide)),
        getCell_cons_eq]
    have h3 : getCell
        [(ac, Cell.bool true),
         (ac ++ "_alignment", Cell.align (some a)),
         (ac ++ "_target", Cell.str a.target),
         (ac ++ "_cigar", Cell.str a.cigar_str),
         (ac ++ "_n_trimmed_query_start", Cell.int a.q_st),
         (ac ++ "_n_trimmed_query_end", Cell.int (a.q_len - a.q_en)),
         (ac ++ "_n_trimmed_target_start", Cell.int a.r_st),
         (ac ++ "_n_trimmed_target_end", Cell.int (a.r_len - a.r_en)),
         (ac ++ "_n_additional", Cell.int a.additional.length),
         (ac ++ "_n_additional_difftarget",
           Cell.int ((a.additional.filter
             (fun a2 => a2.target ∉ iso a.target)).length))]
        (ac ++ "_n_trimmed_target_start") = Cell.int a.r_st := by
      rw [getCell_cons_ne (string_self_ne_append (by decide)),
        getCell_cons_ne (append_ne_of_suffix_ne ac (by decide)),
        getCell_cons_ne (append_ne_of_suffix_ne ac (by decide)),
        getCell_cons_ne (append_ne_of_suffix_ne ac (by decide)),
        getCell_cons_ne (append_ne_of_suffix_ne ac (by decide)),
        getCell_cons_ne (append_ne_of_suffix_ne ac (by decide)),
        getCell_cons_eq]
    have h4 : getCell
        [(ac, Cell.bool true),
         (ac ++ "_alignment", Cell.align (some a)),
         (ac ++ "_target", Cell.str a.target),
         (ac ++ "_cigar", Cell.str a.cigar_str),
         (ac ++ "_n_trimmed_query_start", Cell.int a.q_st),
         (ac ++ "_n_trimmed_query_end", Cell.int (a.q_len - a.q_en)),
         (ac ++ "_n_trimmed_target_start", Cell.int a.r_st),
         (ac ++ "_n_trimmed_target_end", Cell.int (a.r_len - a.r_en)),
         (ac ++ "_n_additional", Cell.int a.additional.length),
         (ac ++ "_n_additional_difftarget",
           Cell.int ((a.additional.filter
             (fun a2 => a2.target ∉ iso a.target)).length))]
        (ac ++ "_n_trimmed_target_end") = Cell.int (a.r_len - a.r_en) := by
      rw [getCell_cons_ne (string_self_ne_append (by decide)),
        getCell_cons_ne (append_ne_of_suffix_ne ac (by decide)),
        getCell_cons_ne (append_ne_of_suffix_ne ac (by decide)),
        getCell_cons_ne (append_ne_of_suffix_ne ac (by decide)),
        getCell_cons_ne (append_ne_of_suffix_ne ac (by decide)),
        getCell_cons_ne (append_ne_of_suffix_ne ac (by decide)),
        getCell_cons_ne (append_ne_of_suffix_ne ac (by decide)),
        getCell_cons_eq]
    refine ⟨h1, h2, h3, h4, ?_, ?_, ?_, ?_⟩
    · rw [h1]; simp [Cell.int.injEq]
    · rw [h2]; simp only [Cell.int.injEq]; omega
    · rw [h3]; simp [Cell.int.injEq]
    · rw [h4]; simp only [Cell.int.injEq]; omega
  · intro hnone
    simp [alignRow, hnone]

/-- Witness for C7: a concrete aligned row with trims `2, 5, 0, 7` and a
concrete unaligned row with all sentinel cells. -/
theorem alignRow_trims_and_sentinels_witness :
    ((fun n => if n = "r1" then
        some (⟨⟨"t", 1, 2, 5, 10, 0, 7, 14, "cig"⟩, []⟩ : Alignment)
      else Option.none) "r1" =
      some (⟨⟨"t", 1, 2, 5, 10, 0, 7, 14, "cig"⟩, []⟩ : Alignment)) ∧
    (∃ cells,
      alignRow
        (fun n => if n = "r1" then
          some (⟨⟨"t", 1, 2, 5, 10, 0, 7, 14, "cig"⟩, []⟩ : Alignment)
        else Option.none)
        (fun t => [t]) "al" true true true true true true Option.none
        Option.none (fun _ => Option.none) "r1" = Except.ok cells ∧
      getCell cells ("al" ++ "_n_trimmed_query_start") = Cell.int 2 ∧
      getCell cells ("al" ++ "_n_trimmed_query_end") = Cell.int (10 - 5) ∧
      getCell cells ("al" ++ "_n_trimmed_target_start") = Cell.int 0 ∧
      getCell cells ("al" ++ "_n_trimmed_target_end") = Cell.int (14 - 7)) ∧
    alignRow
      (fun n => if n = "r1" then
        some (⟨⟨"t", 1, 2, 5, 10, 0, 7, 14, "cig"⟩, []⟩ : Alignment)
      else Option.none)
      (fun t => [t]) "al" true true true true true true
      (some ⟨Option.none, fun a _ => ("", a)⟩) (some ⟨fun _ => ⟨[], [], []⟩⟩)
      (fun _ => Option.none) "r2" = Except.ok
        [("al", Cell.bool false),
         ("al" ++ "_alignment", Cell.align Option.none),
         ("al" ++ "_target", Cell.str ""),
         ("al" ++ "_cigar", Cell.str ""),
         ("al" ++ "_n_trimmed_query_start", Cell.int (-1)),
         ("al" ++ "_n_trimmed_query_end", Cell.int (-1)),
         ("al" ++ "_n_trimmed_target_start", Cell.int (-1)),
         ("al" ++ "_n_trimmed_target_end", Cell.int (-1)),
         ("al" ++ "_n_additional", Cell.int (-1)),
         ("al" ++ "_n_additional_difftarget", Cell.int (-1)),
         ("al" ++ "_target_variant", Cell.str ""),
         ("al" ++ "_substitutions", Cell.muts []),
         ("al" ++ "_insertions", Cell.muts []),
         ("al" ++ "_deletions", Cell.muts [])] := by
  have h := alignRow_trims_and_sentinels
    (fun n => if n = "r1" then
      some (⟨⟨"t", 1, 2, 5, 10, 0, 7, 14, "cig"⟩, []⟩ : Alignment)
    else Option.none)
    (fun t => [t]) "al" ⟨Option.none, fun a _ => ("", a)⟩
    ⟨fun _ => ⟨[], [], []⟩⟩ (fun _ => Option.none)
  refine ⟨rfl, ?_, (h "r2").2 rfl⟩
  obtain ⟨cells, heq, ht1, ht2, ht3, ht4, _⟩ :=
    (h "r1").1 (⟨⟨"t", 1, 2, 5, 10, 0, 7, 14, "cig"⟩, []⟩ : Alignment) rfl rfl
  exact ⟨cells, heq, ht1, ht2, ht3, ht4⟩

theorem mapExceptList_isError {α β ε : Type} (f : α → Except ε β)
    (l : List α) (h : ∃ x ∈ l, ∃ e, f x = Except.error e) :
    ∃ e, mapExceptList f l = Except.error e := by
  induction l with
  | nil => simp at h
  | cons x xs ih =>
    obtain ⟨y, hy, e, hfe⟩ := h
    rcases List.mem_cons.mp hy with heq | hmem
    · subst heq
      exact ⟨e, by simp [mapExceptList, hfe]⟩
    · cases hfx : f x with
      | error e2 => exact ⟨e2, by simp [mapExceptList, hfx]⟩
      | ok y2 =>
        obtain ⟨e3, he3⟩ := ih ⟨y, hmem, e, hfe⟩
        exact ⟨e3, by simp [mapExceptList, hfx, he3, Except.map]⟩

theorem mapExceptList_map_isError {α β γ ε : Type} (f : α → Except ε β)
    (g2 : List β → γ) (l : List α)
    (h : ∃ x ∈ l, ∃ e, f x = Except.error e) :
    ∃ e, Except.map g2 (mapExceptList f l) = Except.error e := by
  obtain ⟨e, he⟩ := mapExceptList_isError f l h
  exact ⟨e, by rw [he]; rfl⟩

theorem alignRow_error_of_reverse_strand
    (md : String → Option Alignment) (iso : String → List String)
    (ac : String) (f1 f2 f3 f4 f5 f6 : Bool) (tv : Option TargetVariants)
    (mc : Option MutationCaller) (qf : String → Option (List ℕ))
    (name : String) (a : Alignment) (ha : md name = some a)
    (hstrand : a.strand ≠ 1) :
    alignRow md iso ac f1 f2 f3 f4 f5 f6 tv mc qf name =
      Except.error ("method does not handle - polarity") := by
  simp [alignRow, ha, hstrand]

/-- Claim C8: if the external aligner returns, for any row, a best
alignment whose strand is not `+1`, `alignSeqs` aborts the whole
annotation call with an error; the reverse-strand alignment is never
converted into a sentinel row. -/
theorem alignSeqs_reverse_strand_fatal (df : DataFrame) (mapper : Mapper)
    (query_col aligned_col : String) (f1 f2 f3 f4 f5 f6 : Bool)
    (tv : Option TargetVariants) (mc : Option MutationCaller) (ow : Bool)
    (h : ∃ r ∈ df.rows, ∃ a : Alignment,
      mapper.map (alignQueries df query_col) (asStr (getCell r "name")) =
        some a ∧ a.strand ≠ 1) :
    ∃ e, alignSeqs df mapper query_col aligned_col f1 f2 f3 f4 f5 f6 tv mc
      ow = Except.error e := by
  unfold alignSeqs
  by_cases h1 : query_col ∈ df.columns
  · rw [if_pos h1]
    by_cases h2 : tvNeedsQvals tv = true ∧
        (query_col ++ "_qvals") ∉ df.columns
    · rw [if_pos h2]; exact ⟨_, rfl⟩
    · rw [if_neg h2]
      by_cases h3 : ¬(alignNewcols aligned_col f1 f2 f3 f4 f5 f6 tv.isSome
          mc.isSome).Nodup
      · rw [if_pos h3]; exact ⟨_, rfl⟩
      · rw [if_neg h3]
        by_cases h4 : ¬ow = true ∧
            ((alignNewcols aligned_col f1 f2 f3 f4 f5 f6 tv.isSome
              mc.isSome).filter (fun c => c ∈ df.columns)) ≠ []
        · rw [if_pos h4]; exact ⟨_, rfl⟩
        · rw [if_neg h4]
          by_cases h5 : ¬(df.rows.map
              (fun r => asStr (getCell r "name"))).Nodup
          · rw [if_pos h5]; exact ⟨_, rfl⟩
          · rw [if_neg h5]
            obtain ⟨r, hr, a, hmd, hstrand⟩ := h
            exact mapExceptList_map_isError _ _ df.rows
              ⟨r, hr, "method does not handle - polarity", by
                rw [alignRow_error_of_reverse_strand _ _ _ _ _ _ _ _ _
                  tv mc _ _ a hmd hstrand]
                rfl⟩
  · rw [if_neg h1]; exact ⟨_, rfl⟩

/-- Witness for C8: a one-row frame whose query gets a reverse-strand
(`strand = -1`) alignment makes the whole call error. -/
theorem alignSeqs_reverse_strand_fatal_witness :
    ∃ e, alignSeqs
      ⟨["name", "CCS"], [[("name", Cell.str "r1"), ("CCS", Cell.str "ACGT")]]⟩
      ⟨fun _ n => if n = "r1" then
          some (⟨⟨"t", -1, 0, 4, 4, 0, 4, 4, "cig"⟩, []⟩ : Alignment)
        else Option.none,
       fun t => [t]⟩
      "CCS" "al" true true true true true true Option.none Option.none
      true = Except.error e :=
  alignSeqs_reverse_strand_fatal
    ⟨["name", "CCS"], [[("name", Cell.str "r1"), ("CCS", Cell.str "ACGT")]]⟩
    ⟨fun _ n => if n = "r1" then
        some (⟨⟨"t", -1, 0, 4, 4, 0, 4, 4, "cig"⟩, []⟩ : Alignment)
      else Option.none,
     fun t => [t]⟩
    "CCS" "al" true true true true true true Option.none Option.none true
    ⟨[("name", Cell.str "r1"), ("CCS", Cell.str "ACGT")],
     List.mem_singleton.mpr rfl,
     ⟨⟨"t", -1, 0, 4, 4, 0, 4, 4, "cig"⟩, []⟩, rfl, by decide⟩

theorem findGt_some_spec (s : List Char) :
    ∀ fuel k j, findGt s k fuel = some j →
      k ≤ j ∧ j < s.length ∧ s.get? j = some ('>') ∧
      ∀ m, k ≤ m → m < j → s.get? m ≠ some ('>') := by
  intro fuel
  induction fuel with
  | zero => intro k j h; simp [findGt] at h
  | succ fuel ih =>
    intro k j h
    unfold findGt at h
    cases hk : s.get? k with
    | none => rw [hk] at h; simp at h
    | some c =>
      rw [hk] at h
      dsimp only at h
      by_cases hc : c = '>'
      · rw [if_pos hc] at h
        injection h with h
        subst h
        have hlt : k < s.length := by
          by_contra hge
          rw [List.get?_eq_none.mpr (by omega)] at hk
          cases hk
        exact ⟨le_refl k, hlt, by rw [hk, hc], fun m h1 h2 => by omega⟩
      · rw [if_neg hc] at h
        obtain ⟨h1, h2, h3, h4⟩ := ih (k + 1) j h
        refine ⟨by omega, h2, h3, ?_⟩
        intro m hm1 hm2
        by_cases hmk : m = k
        · subst hmk
          rw [hk]
          intro hcontr
          injection hcontr with hc2
          exact hc hc2
        · exact h4 m (by omega) hm2

theorem findGt_none_spec (s : List Char) :
    ∀ fuel k, s.length ≤ k + fuel → findGt s k fuel = Option.none →
      ∀ m, k ≤ m → s.get? m ≠ some ('>') := by
  intro fuel
  induction fuel with
  | zero =>
    intro k hfuel _ m hm
    rw [List.get?_eq_none.mpr (by omega)]
    intro h; cases h
  | succ fuel ih =>
    intro k hfuel h m hm
    unfold findGt at h
    cases hk : s.get? k with
    | none =>
      have hlen : s.length ≤ k := List.get?_eq_none.mp hk
      rw [List.get?_eq_none.mpr (by omega)]
      intro h2; cases h2
    | some c =>
      rw [hk] at h
      dsimp only at h
      by_cases hc : c = '>'
      · rw [if_pos hc] at h; cases h
      · rw [if_neg hc] at h
        by_cases hmk : m = k
        · subst hmk
          rw [hk]
          intro hcontr
          injection hcontr with hc2
          exact hc hc2
        · exact ih (k + 1) (by omega) h m (by omega)

theorem startsGroupname_iff (s : List Char) (p : ℕ) :
    startsGroupname s p = true ↔
      s.get? p = some ('(') ∧ s.get? (p + 1) = some ('?') ∧
      s.get? (p + 2) = some ('P') ∧ s.get? (p + 3) = some ('<') := by
  simp [startsGroupname, and_assoc]

theorem inSpans_cons (x y i : ℕ) (rest : List (ℕ × ℕ)) :
    inSpans ((x, y) :: rest) i =
      ((decide (x ≤ i) && decide (i < y)) || inSpans rest i) := by
  simp [inSpans]

/-- Every span the scanner records is a declarative group-name span, and
starts no earlier than the scan position. -/
theorem gnSpansAux_sound (s : List Char) :
    ∀ fuel p a b, (a, b) ∈ gnSpansAux s p fuel →
      IsGroupnameSpan s a b ∧ p ≤ a := by
  intro fuel
  induction fuel with
  | zero => intro p a b h; simp [gnSpansAux] at h
  | succ fuel ih =>
    intro p a b h
    unfold gnSpansAux at h
    by_cases hp : p < s.length
    · rw [if_pos hp] at h
      by_cases hsg : startsGroupname s p
      · rw [if_pos hsg] at h
        cases hfg : findGt s (p + 4) s.length with
        | none =>
          rw [hfg] at h
          obtain ⟨hspan, hle⟩ := ih (p + 1) a b h
          exact ⟨hspan, by omega⟩
        | some j =>
          rw [hfg] at h
          rcases List.mem_cons.mp h with heq | hmem
          · obtain ⟨hpj, hjlen, hjgt, hbetween⟩ :=
              findGt_some_spec s s.length (p + 4) j hfg
            have hab : a = p ∧ b = j + 1 := by
              constructor <;> [exact congrArg Prod.fst heq;
                exact congrArg Prod.snd heq]
            obtain ⟨ha2, hb2⟩ := hab
            subst ha2; subst hb2
            obtain ⟨hg1, hg2, hg3, hg4⟩ := (startsGroupname_iff s a).mp hsg
            refine ⟨⟨by omega, by omega, hg1, hg2, hg3, hg4, ?_, ?_⟩,
              le_refl a⟩
            · intro k hk1 hk2
              exact hbetween k hk1 (by omega)
            · simpa using hjgt
          · obtain ⟨hspan, hle⟩ := ih (j + 1) a b hmem
            obtain ⟨hpj, _, _, _⟩ := findGt_some_spec s s.length (p + 4) j hfg
            exact ⟨hspan, by omega⟩
      · rw [if_neg hsg] at h
        obtain ⟨hspan, hle⟩ := ih (p + 1) a b h
        exact ⟨hspan, by omega⟩
    · rw [if_neg hp] at h
      simp at h

/-- Every index declaratively inside a marker span at or after the scan
position is covered by the scanner's recorded spans, given enough fuel. -/
theorem gnSpansAux_complete (s : List Char) :
    ∀ fuel p a b i, IsGroupnameSpan s a b → p ≤ a → a ≤ i → i < b →
      s.length ≤ p + fuel → inSpans (gnSpansAux s p fuel) i = true := by
  intro fuel
  induction fuel with
  | zero =>
    intro p a b i hspan hpa hai hib hfuel
    obtain ⟨h1, h2, _⟩ := hspan
    omega
  | succ fuel ih =>
    intro p a b i hspan hpa hai hib hfuel
    obtain ⟨hb5, hblen, hg1, hg2, hg3, hg4, hbetween, hgtb⟩ := hspan
    have halen : a < s.length := by omega
    have hp : p < s.length := by omega
    unfold gnSpansAux
    rw [if_pos hp]
    by_cases hsg : startsGroupname s p
    · cases hfg : findGt s (p + 4) s.length with
      | none =>
        have hnone := findGt_none_spec s s.length (p + 4) (by omega) hfg
        by_cases hap : a = p
        · subst hap
          exact absurd hgtb (hnone (b - 1) (by omega))
        · rw [if_pos hsg]
          dsimp only
          exact ih (p + 1) a b i
            ⟨hb5, hblen, hg1, hg2, hg3, hg4, hbetween, hgtb⟩
            (by omega) hai hib (by omega)
      | some j =>
        rw [if_pos hsg]
        dsimp only
        obtain ⟨hpj, hjlen, hjgt, hjbetween⟩ :=
          findGt_some_spec s s.length (p + 4) j hfg
        rw [inSpans_cons]
        by_cases haj : a ≤ j
        · have ha4j : a + 4 ≤ j := by
            have hne0 : a ≠ j := fun he => by
              rw [he, hjgt] at hg1; cases hg1
            have hne1 : a + 1 ≠ j := fun he => by
              rw [← he] at hjgt; rw [hjgt] at hg2; cases hg2
            have hne2 : a + 2 ≠ j := fun he => by
              rw [← he] at hjgt; rw [hjgt] at hg3; cases hg3
            have hne3 : a + 3 ≠ j := fun he => by
              rw [← he] at hjgt; rw [hjgt] at hg4; cases hg4
            omega
          have hbj : b = j + 1 := by
            by_cases hb1 : b - 1 < j
            · exact absurd hgtb
                (hjbetween (b - 1) (by omega) hb1)
            · by_cases hb2 : j < b - 1
              · exact absurd hjgt (hbetween j ha4j (by omega))
              · omega
          have hpi : p ≤ i := by omega
          have hij : i < j + 1 := by omega
          rw [decide_eq_true hpi, decide_eq_true hij]
          rfl
        · have haj2 : j + 1 ≤ a := by omega
          have h2 := ih (j + 1) a b i
            ⟨hb5, hblen, hg1, hg2, hg3, hg4, hbetween, hgtb⟩
            haj2 hai hib (by omega)
          rw [h2]
          simp
    · have hap : a ≠ p := fun he => by
        subst he
        exact hsg ((startsGroupname_iff s a).mpr ⟨hg1, hg2, hg3, hg4⟩)
      rw [if_neg hsg]
      exact ih (p + 1) a b i
        ⟨hb5, hblen, hg1, hg2, hg3, hg4, hbetween, hgtb⟩
        (by omega) hai hib (by omega)

/-- The index set the source's scanner marks coincides with the
declarative "inside a capture-group name marker" predicate. -/
theorem inSpans_gnSpans_iff (s : List Char) (i : ℕ) :
    inSpans (gnSpans s) i = true ↔ InMarker s i := by
  constructor
  · intro h
    obtain ⟨ab, hmem, hab⟩ := List.any_eq_true.mp h
    obtain ⟨hle, hlt⟩ := Bool.and_eq_true_iff.mp hab
    obtain ⟨hspan, _⟩ := gnSpansAux_sound s (s.length + 1) 0 ab.1 ab.2
      (by rw [show (ab.1, ab.2) = ab from rfl]; exact hmem)
    exact ⟨ab.1, ab.2, hspan, of_decide_eq_true hle, of_decide_eq_true hlt⟩
  · rintro ⟨a, b, hspan, hai, hib⟩
    exact gnSpansAux_complete s (s.length + 1) 0 a b i hspan (Nat.zero_le a)
      hai hib (by omega)

/-- Claim C6: `re_expandIUPAC` is a pure character-by-character rewrite:
the output is the concatenation of one piece per input character, where a
character inside a capture-group name marker (declaratively: inside a span
`(?P<...>`) is kept verbatim even if it is an ambiguous code letter, an
ambiguous IUPAC code letter outside every marker becomes its explicit
character class, and any other character is kept verbatim — so group
markers (hence group count and names) and quantifiers survive unchanged. -/
theorem re_expandIUPAC_char_rewrite (s : String) :
    ∃ pieces : List (List Char),
      re_expandIUPAC s = ⟨pieces.flatten⟩ ∧
      pieces.length = s.toList.length ∧
      ∀ i c, s.toList.get? i = some c →
        ((InMarker s.toList i → pieces.get? i = some [c]) ∧
         (¬InMarker s.toList i → ∀ r, NT_TO_REGEXP c = some r →
            pieces.get? i = some r.toList) ∧
         (¬InMarker s.toList i → NT_TO_REGEXP c = Option.none →
            pieces.get? i = some [c])) := by
  refine ⟨s.toList.enum.map (fun ic =>
    if inSpans (gnSpans s.toList) ic.1 then [ic.2] else expandChar ic.2),
    ?_, by simp, ?_⟩
  · rfl
  intro i c hc
  have hpg : (s.toList.enum.map (fun ic =>
      if inSpans (gnSpans s.toList) ic.1 then [ic.2]
      else expandChar ic.2)).get? i =
      some (if inSpans (gnSpans s.toList) i then [c] else expandChar c) := by
    rw [List.get?_map, List.get?_enum, hc]
    rfl
  refine ⟨?_, ?_, ?_⟩
  · intro hm
    rw [hpg, if_pos ((inSpans_gnSpans_iff s.toList i).mpr hm)]
  · intro hm r hr
    rw [hpg,
      if_neg (fun hx => hm ((inSpans_gnSpans_iff s.toList i).mp hx))]
    simp [expandChar, hr]
  · intro hm hr
    rw [hpg,
      if_neg (fun hx => hm ((inSpans_gnSpans_iff s.toList i).mp hx))]
    simp [expandChar, hr]

/-- Witness for C6 on `N(?P<gN>N)N`: the `N` inside the group-name marker
(index 6) is kept verbatim while the `N` at index 0, outside every marker,
expands to `[ACGT]`. -/
theorem re_expandIUPAC_char_rewrite_witness :
    ∃ pieces : List (List Char),
      re_expandIUPAC "N(?P<gN>N)N" = ⟨pieces.flatten⟩ ∧
      pieces.length = ("N(?P<gN>N)N").toList.length ∧
      pieces.get? 6 = some ['N'] ∧
      pieces.get? 0 = some (("[ACGT]").toList) := by
  obtain ⟨pieces, h1, h2, h3⟩ := re_expandIUPAC_char_rewrite "N(?P<gN>N)N"
  refine ⟨pieces, h1, h2, ?_, ?_⟩
  · refine (h3 6 'N' (by decide)).1 ⟨1, 8, ?_, by omega, by omega⟩
    refine ⟨by omega, by decide, by decide, by decide, by decide, by decide,
      ?_, by decide⟩
    intro k hk1 hk2
    have hk3 : k = 5 ∨ k = 6 := by omega
    rcases hk3 with rfl | rfl <;> decide
  · refine (h3 0 'N' (by decide)).2.1 ?_ "[ACGT]" (by decide)
    rintro ⟨a, b, hspan, hai, hib⟩
    have ha0 : a = 0 := by omega
    subst ha0
    exact absurd hspan.2.2.1 (by decide)

end DmsTools2
